import Mathlib

/-!
# Verification of the uniform grid component (src/learner/Grid.cpp)

This file embeds the `Grid` class of `src/learner/Grid.cpp` into Lean.

Modelling conventions:
* C++ `uint` (32-bit unsigned) values are modelled as `Nat` kept below
  `U32 = 2^32`; every arithmetic operation the source performs on `uint`s
  is modelled with an explicit reduction modulo `U32` (`uadd`, `usub`,
  `umul`), so unsigned wraparound is represented faithfully.
* C++ `double` values are modelled as `Rat` (exact real-valued semantics
  of the arithmetic expressions the source evaluates).
* The per-dimension arrays `N`, `min`, `max`, `cumN`, `stride`,
  `strideinv`, `raster` are modelled as lists; `DIM` is the common length.
* The scratch buffer `_idx` that the source mutates is modelled by
  explicit recursion (`odoInc`, the odometer step of the enumeration
  loops).
-/

/-- `2^32`, the modulus of C++ 32-bit unsigned arithmetic. -/
def U32 : Nat := 4294967296

/-- Addition of two `uint` values (wraps modulo `2^32`). -/
def uadd (a b : Nat) : Nat := (a + b) % U32

/-- Multiplication of two `uint` values (wraps modulo `2^32`). -/
def umul (a b : Nat) : Nat := (a * b) % U32

/-- Subtraction of two `uint` values (wraps modulo `2^32`).
The subtrahend is first reduced, as a `uint` argument would be. -/
def usub (a b : Nat) : Nat := (a + (U32 - b % U32)) % U32

/-- Reinterpretation of a `uint` bit pattern as a C++ `int`
(two's complement), used for the `(int)` casts in the source. -/
def intOfUint (n : Nat) : Int :=
  if n % U32 < 2147483648 then (n % U32 : Int) else (n % U32 : Int) - (U32 : Int)

/-- Qt's `qBound(min, val, max) = qMax(min, qMin(max, val))`. -/
def qBound (lo v hi : Int) : Int := max lo (min hi v)

/-- The C++ `(int)` cast of a `double`: truncation toward zero. -/
def truncInt (q : Rat) : Int := if q < 0 then -(Int.floor (-q)) else Int.floor q

/-- The `Grid` class: configuration fields `N` (nodes per dimension),
`min`, `max` (bounds per dimension), and the derived fields computed by
`Grid::rasterize` (`nodeCount`, `cumN`, `stride`, `strideinv`, `raster`).
`DIM` is the common length of the per-dimension lists.
The constructor `Grid::Grid` sets `nodeCount = 0` and leaves the derived
arrays empty, which the default field values mirror. -/
structure Grid where
  N : List Nat
  min : List Rat
  max : List Rat
  nodeCount : Nat := 0
  cumN : List Nat := []
  stride : List Rat := []
  strideinv : List Rat := []
  raster : List (List Rat) := []
deriving Repr, DecidableEq

/-- `nodeCount = N[0]; for d = 1..DIM-1: nodeCount *= N[d]` with `uint`
multiplication (`Grid::rasterize`, lines 154-156).  For `DIM = 0` the
loop is never entered and `nodeCount` keeps the constructor value `0`. -/
def nodeCountOf : List Nat → Nat
  | [] => 0
  | n :: ns => ns.foldl umul n

/-- `cumN[0] = 1; cumN[d] = cumN[d-1]*N[d-1]` with `uint` multiplication
(`Grid::rasterize`, lines 160-162), written with the accumulator
`acc = cumN[d]` carried through the list of `N` values. -/
def cumNAux (acc : Nat) : List Nat → List Nat
  | [] => []
  | n :: ns => acc :: cumNAux (umul acc n) ns

/-- The full `cumN` table of a node-count list. -/
def cumNList (N : List Nat) : List Nat := cumNAux 1 N

/-- `k += idx[d]*cumN[d]` summation loop of
`Grid::convertIndex(const uint*)` (lines 190-198) with `uint` arithmetic.
The source initializes `k = idx[0]` and starts the loop at `d = 1`;
because `cumN[0] = 1` this equals folding from `k = 0` over all `d`. -/
def sumProd : List Nat → List Nat → Nat → Nat
  | i :: is, c :: cs, k => sumProd is cs (uadd k (umul i c))
  | _, _, k => k

/-- `Grid::convertIndex(const uint*)`: dimension index to flat index,
using a `cumN` table. -/
def convertIdx (cums idx : List Nat) : Nat := sumProd idx cums 0

/-- `Grid::convertIndex(uint)` (lines 202-211): flat index to dimension
index by mixed-radix decomposition, `_idx[d] = v % N[d]; v = v / N[d]`. -/
def flatToDim (N : List Nat) (v : Nat) : List Nat :=
  match N with
  | [] => []
  | n :: ns => (v % n) :: flatToDim ns (v / n)

/-- `stride[d] = (max[d]-min[d])/(N[d]-1)` (`Grid::rasterize`, line 168);
`N[d]-1` is computed in `uint` arithmetic before conversion to `double`. -/
def strideAxis (n : Nat) (mn mx : Rat) : Rat := (mx - mn) / ((usub n 1 : Nat) : Rat)

/-- The `stride` list over all axes. -/
def stridesOf : List Nat → List Rat → List Rat → List Rat
  | n :: ns, mn :: mns, mx :: mxs => strideAxis n mn mx :: stridesOf ns mns mxs
  | _, _, _ => []

/-- `raster[d][n] = min[d] + n*stride[d]` for `n = 0..N[d]-1`
(`Grid::rasterize`, lines 170-172). -/
def rasterAxis (n : Nat) (mn st : Rat) : List Rat :=
  (List.range n).map fun (i : Nat) => mn + (i : Rat) * st

/-- The full `raster` table over all axes. -/
def rastersOf : List Nat → List Rat → List Rat → List (List Rat)
  | n :: ns, mn :: mns, mx :: mxs => rasterAxis n mn (strideAxis n mn mx) :: rastersOf ns mns mxs
  | _, _, _ => []

/-- `Grid::rasterize` (lines 152-174): computes `nodeCount`, `cumN`,
`stride`, `strideinv = 1.0/stride`, and `raster` from the configuration. -/
def rasterize (g : Grid) : Grid :=
  { g with
    nodeCount := nodeCountOf g.N
    cumN := cumNList g.N
    stride := stridesOf g.N g.min g.max
    strideinv := (stridesOf g.N g.min g.max).map fun s => 1 / s
    raster := rastersOf g.N g.min g.max }

/-- `Grid::convertIndex(const uint*)` as a method reading the stored
`cumN` member. -/
def Grid.convertIndexDim (g : Grid) (idx : List Nat) : Nat := convertIdx g.cumN idx

/-- `Grid::convertIndex(uint)` as a method reading the stored `N` member. -/
def Grid.convertIndexFlat (g : Grid) (v : Nat) : List Nat := flatToDim g.N v

/-- The per-axis body of `Grid::getNodeIndexBl` (lines 215-220):
`_idx[d] = (uint)qBound(0, (int)((x[d]-min[d])*strideinv[d]), (int)N[d]-2)`. -/
def nodeIndexBlAux : List Rat → List Rat → List Rat → List Nat → List Nat
  | x :: xs, mn :: mns, si :: sis, n :: ns =>
    (qBound 0 (truncInt ((x - mn) * si)) (intOfUint n - 2)).toNat
      :: nodeIndexBlAux xs mns sis ns
  | _, _, _, _ => []

/-- `Grid::getNodeIndexBl`: the "bottom left" dimension index of the cell
containing the point `x`. -/
def Grid.getNodeIndexBl (g : Grid) (x : List Rat) : List Nat :=
  nodeIndexBlAux x g.min g.strideinv g.N

/-- The odometer increment shared by the enumeration loops
(`Grid.cpp` lines 315-323 and 362-370): increment `_idx[0]` (a `uint`
increment); on overflow past `bmax[d]` reset to `bmin[d]` and carry. -/
def odoInc : List Nat → List Nat → List Nat → List Nat
  | i :: is, lo :: los, hi :: his =>
    if uadd i 1 ≤ hi then uadd i 1 :: is else lo :: odoInc is los his
  | is, _, _ => is

/-- `neighbors = 1; for d: neighbors *= bmax[d]-bmin[d]+1` with `uint`
arithmetic (lines 302-304 and 350-352). -/
def nbrCount (lo hi : List Nat) : Nat :=
  (List.zipWith (fun b a => uadd (usub b a) 1) hi lo).foldl umul 1

/-- `bmin[d] = (idx[d] < radius) ? 0 : (idx[d] - radius)` of
`Grid::enumerateNeighborHood` (line 295). -/
def bminNbr (idx : List Nat) (radius : Nat) : List Nat :=
  idx.map fun i => if i < radius then 0 else usub i radius

/-- `bmax[d] = qMin(idx[d]+radius, N[d]-1)` of
`Grid::enumerateNeighborHood` (line 297), with `uint` arithmetic. -/
def bmaxNbr (idx N : List Nat) (radius : Nat) : List Nat :=
  List.zipWith (fun i n => min (uadd i radius) (usub n 1)) idx N

/-- The enumeration loop of `Grid::enumerateNeighborHood`
(lines 310-324): emit `c = convertIndex(_idx)` unless `c == center`,
then advance the odometer; run `fuel = neighbors` iterations. -/
def enumLoopNbr (cums lo hi : List Nat) (center : Nat) : Nat → List Nat → List Nat
  | 0, _ => []
  | Nat.succ fuel, cur =>
    let c := convertIdx cums cur
    if c ≠ center then c :: enumLoopNbr cums lo hi center fuel (odoInc cur lo hi)
    else enumLoopNbr cums lo hi center fuel (odoInc cur lo hi)

/-- `Grid::enumerateNeighborHood(const uint*, uint)` (lines 285-327). -/
def Grid.enumerateNeighborHood (g : Grid) (idx : List Nat) (radius : Nat) : List Nat :=
  let center := convertIdx g.cumN idx
  let lo := bminNbr idx radius
  let hi := bmaxNbr idx g.N radius
  enumLoopNbr g.cumN lo hi center (nbrCount lo hi) lo

/-- The enumeration loop of `Grid::getEnvelopingNodes` (lines 358-371):
like `enumLoopNbr` but every node is emitted (no center exclusion). -/
def envLoop (cums lo hi : List Nat) : Nat → List Nat → List Nat
  | 0, _ => []
  | Nat.succ fuel, cur => convertIdx cums cur :: envLoop cums lo hi fuel (odoInc cur lo hi)

/-- `Grid::getEnvelopingNodes` (lines 334-374).  Note the lower bound
`bmin[d] = qMax(idx[d]-radius, (uint)0)` (line 345): the subtraction is
performed on `uint`s, so for `radius > idx[d]` it wraps around instead of
clamping to `0` (`max _ 0` is the identity on unsigned values). -/
def Grid.getEnvelopingNodes (g : Grid) (x : List Rat) (radius : Nat) : List Nat :=
  let idx := g.getNodeIndexBl x
  let lo := idx.map fun i => Nat.max (usub i radius) 0
  let hi := List.zipWith (fun i n => Nat.min (uadd (uadd i radius) 1) (usub n 1)) idx g.N
  envLoop g.cumN lo hi (nbrCount lo hi) lo

/-- The per-axis loop of `Grid::containsPoint` (lines 377-384):
`if (x[d] > max[d] || x[d] < min[d]) return false`. -/
def containsPointAux : List Rat → List Rat → List Rat → Bool
  | x :: xs, mn :: mns, mx :: mxs =>
    if x > mx ∨ x < mn then false else containsPointAux xs mns mxs
  | _, _, _ => true

/-- `Grid::containsPoint`: true iff the point lies within the grid bounds. -/
def Grid.containsPoint (g : Grid) (x : List Rat) : Bool :=
  containsPointAux x g.min g.max

/-- The concrete 3x3 example grid of the spec: `D=2`, `N=[3,3]`,
`min=[0,0]`, `max=[2,2]`. -/
def grid33 : Grid := { N := [3, 3], min := [0, 0], max := [2, 2] }

/-- A degenerate-extent grid: one axis, two nodes, equal bounds. -/
def gridFlat : Grid := { N := [2], min := [0], max := [0] }

/-- A grid whose total node count `2^48` overflows 32-bit arithmetic. -/
def gridBig : Grid := { N := [65536, 65536, 65536], min := [0, 0, 0], max := [1, 1, 1] }

/-- Proof helper: the exact (unbounded) product of a node-count list. -/
def prodP : List Nat → Nat
  | [] => 1
  | n :: ns => n * prodP ns

/-- Proof helper: the exact mixed-radix value of a dimension index in the
radices `N`, `valP (i :: is) (n :: ns) = i + n * valP is ns`. -/
def valP : List Nat → List Nat → Nat
  | i :: is, n :: ns => i + n * valP is ns
  | _, _ => 0

/-- Proof helper: `cumNAux` in exact (unbounded) arithmetic. -/
def cumAuxP (acc : Nat) : List Nat → List Nat
  | [] => []
  | n :: ns => acc :: cumAuxP (acc * n) ns

/-- Proof helper: `sumProd` in exact (unbounded) arithmetic. -/
def sumProdP : List Nat → List Nat → Nat → Nat
  | i :: is, c :: cs, k => sumProdP is cs (k + i * c)
  | _, _, k => k

/-- `usub n 1` is ordinary subtraction for in-range `uint`s. -/
theorem usub_one {n : Nat} (h1 : 1 ≤ n) (h2 : n < U32) : usub n 1 = n - 1 := by
  have : n + (U32 - 1 % U32) = (n - 1) + U32 := by
    have : (1 : Nat) % U32 = 1 := by decide
    omega
  rw [usub, this, Nat.add_mod_right, Nat.mod_eq_of_lt (by omega)]

/-- `usub i 0` is the identity for in-range `uint`s. -/
theorem usub_zero {i : Nat} (h : i < U32) : usub i 0 = i := by
  have : (0 : Nat) % U32 = 0 := by decide
  rw [usub, this, Nat.sub_zero, Nat.add_mod_right, Nat.mod_eq_of_lt h]

/-- `uadd i 0` is the identity for in-range `uint`s. -/
theorem uadd_zero {i : Nat} (h : i < U32) : uadd i 0 = i := by
  rw [uadd, Nat.add_zero, Nat.mod_eq_of_lt h]

/-- C9: rasterizing an already rasterized grid recomputes exactly the
same derived state (`nodeCount`, `cumN`, `stride`, `strideinv`,
`raster`): `rasterize` reads only the configuration fields `N`, `min`,
`max`, which it leaves unchanged. -/
theorem rasterize_idempotent (g : Grid) : rasterize (rasterize g) = rasterize g := rfl

/-- C7: on the concrete grid `D=2`, `N=[3,3]`, `min=[0,0]`, `max=[2,2]`,
rasterization yields `raster[0]=[0,1,2]` (indeed `raster=[[0,1,2],[0,1,2]]`),
`stride=[1,1]`, `nodeCount=9`, and index conversion gives
`convertIndex([1,1])==4` and `convertIndex(4)==[1,1]`. -/
theorem grid33_example_values :
    (rasterize grid33).raster = [[0, 1, 2], [0, 1, 2]] ∧
    (rasterize grid33).stride = [1, 1] ∧
    (rasterize grid33).nodeCount = 9 ∧
    (rasterize grid33).convertIndexDim [1, 1] = 4 ∧
    (rasterize grid33).convertIndexFlat 4 = [1, 1] := by
  have husub : usub 3 1 = 2 := by decide
  refine ⟨?_, ?_, by decide, by decide, by decide⟩
  · simp [rasterize, grid33, rastersOf, rasterAxis, strideAxis, husub, List.range_succ]
  · simp [rasterize, grid33, stridesOf, strideAxis, husub]

/-- C6: on the 3x3 grid, the neighborhood of the corner node `[0,0]` with
radius 1 is exactly the flat indices of `[1,0]`, `[0,1]`, `[1,1]`
(3 points; the out-of-grid neighbors are dropped and the center is
excluded). -/
theorem neighborhood_corner_radius_one :
    (rasterize grid33).enumerateNeighborHood [0, 0] 1 =
      [(rasterize grid33).convertIndexDim [1, 0],
       (rasterize grid33).convertIndexDim [0, 1],
       (rasterize grid33).convertIndexDim [1, 1]] := by decide

set_option maxRecDepth 10000 in
/-- C2 (code bug): on the 3x3 grid with `x=(0.5,0.5)` (so the bottom-left
index is `[0,0]`) and `radius=1`, `getEnvelopingNodes` does NOT clamp the
lower bound to 0: `bmin[d] = qMax(idx[d]-radius, 0u)` underflows to
`2^32-1`, so the method enumerates 16 wrapped index tuples instead of the
9 points of the clamped box, emitting garbage flat indices such as
`4294967292`. -/
theorem getEnvelopingNodes_wraps_below_zero :
    (rasterize grid33).getNodeIndexBl [1/2, 1/2] = [0, 0] ∧
    (rasterize grid33).getEnvelopingNodes [1/2, 1/2] 1 =
      [4294967292, 4294967293, 4294967294, 4294967295, 4294967295,
       0, 1, 2, 2, 3, 4, 5, 5, 6, 7, 8] := by
  have husub : usub 3 1 = 2 := by decide
  have hbl : (rasterize grid33).getNodeIndexBl [1/2, 1/2] = [0, 0] := by
    simp [Grid.getNodeIndexBl, rasterize, grid33, nodeIndexBlAux, stridesOf, strideAxis,
      truncInt, qBound, intOfUint, husub, U32]
    norm_num
  refine ⟨hbl, ?_⟩
  simp only [Grid.getEnvelopingNodes, hbl]
  decide

/-- `sumProdP` against the exact prefix-product table computes the
mixed-radix value: `sumProdP idx (cumAuxP a N) k = k + a * valP idx N`. -/
theorem sumProdP_cumAuxP (idx : List Nat) : ∀ (N : List Nat) (a k : Nat),
    sumProdP idx (cumAuxP a N) k = k + a * valP idx N := by
  induction idx with
  | nil => intro N a k; cases N <;> simp [sumProdP, valP, cumAuxP]
  | cons i is ih =>
    intro N a k
    cases N with
    | nil => simp [sumProdP, valP, cumAuxP]
    | cons n ns =>
      simp only [cumAuxP, sumProdP, valP, ih]
      ring

/-- The `uint` summation loop is the exact summation reduced mod `2^32`. -/
theorem sumProd_mod (idx : List Nat) : ∀ (N : List Nat) (a k : Nat),
    sumProd idx (cumNAux (a % U32) N) (k % U32) = (sumProdP idx (cumAuxP a N) k) % U32 := by
  induction idx with
  | nil => intro N a k; cases N <;> simp [sumProd, sumProdP, cumNAux, cumAuxP]
  | cons i is ih =>
    intro N a k
    cases N with
    | nil => simp [sumProd, sumProdP, cumNAux, cumAuxP]
    | cons n ns =>
      simp only [cumNAux, cumAuxP, sumProd, sumProdP]
      have h1 : umul (a % U32) n = (a * n) % U32 :=
        Nat.ModEq.mul_right n (Nat.mod_modEq a U32)
      have h2 : uadd (k % U32) (umul i (a % U32)) = (k + i * a) % U32 := by
        unfold uadd umul
        conv_lhs => rw [← Nat.add_mod]
        exact Nat.ModEq.add_left k (Nat.ModEq.mul_left i (Nat.mod_modEq a U32))
      rw [h1, h2]
      exact ih ns (a * n) (k + i * a)

/-- `Grid::convertIndex(const uint*)` computes the exact mixed-radix
value of the index, reduced mod `2^32`. -/
theorem convertIdx_cumNList (idx N : List Nat) :
    convertIdx (cumNList N) idx = valP idx N % U32 := by
  have h1 : (1 : Nat) = 1 % U32 := by decide
  have h0 : (0 : Nat) = 0 % U32 := by decide
  calc convertIdx (cumNList N) idx
      = sumProd idx (cumNAux (1 % U32) N) (0 % U32) := by rw [← h1, ← h0]; rfl
    _ = (sumProdP idx (cumAuxP 1 N) 0) % U32 := sumProd_mod idx N 1 0
    _ = valP idx N % U32 := by rw [sumProdP_cumAuxP]; simp

/-- An in-range dimension index has mixed-radix value below the exact
total node count. -/
theorem valP_lt {idx N : List Nat} (h : List.Forall₂ (· < ·) idx N) :
    valP idx N < prodP N := by
  induction h with
  | nil => simp [valP, prodP]
  | @cons i n is ns h1 h2 ih =>
    simp only [valP, prodP]
    have h3 : n * (valP is ns + 1) ≤ n * prodP ns := Nat.mul_le_mul_left n ih
    rw [Nat.mul_add, Nat.mul_one] at h3
    omega

/-- Mixed-radix decomposition recovers an in-range dimension index from
its exact value. -/
theorem flatToDim_valP {idx N : List Nat} (h : List.Forall₂ (· < ·) idx N) :
    flatToDim N (valP idx N) = idx := by
  induction h with
  | nil => simp [flatToDim, valP]
  | @cons i n is ns h1 h2 ih =>
    have hn : 0 < n := Nat.lt_of_le_of_lt (Nat.zero_le i) h1
    simp only [valP, flatToDim]
    rw [Nat.add_mul_mod_self_left, Nat.mod_eq_of_lt h1,
        Nat.add_mul_div_left _ _ hn, Nat.div_eq_of_lt h1, Nat.zero_add, ih]

/-- The exact value of the mixed-radix decomposition of `v` is `v`,
for `v` below the exact total node count. -/
theorem valP_flatToDim : ∀ (N : List Nat) (v : Nat), (∀ n ∈ N, 0 < n) → v < prodP N →
    valP (flatToDim N v) N = v := by
  intro N
  induction N with
  | nil =>
    intro v _ hv
    simp only [prodP] at hv
    interval_cases v
    simp [flatToDim, valP]
  | cons n ns ih =>
    intro v hpos hv
    simp only [flatToDim, valP]
    have hn : 0 < n := hpos n (by simp)
    have hdiv : v / n < prodP ns := by
      rw [Nat.div_lt_iff_lt_mul hn]
      calc v < prodP (n :: ns) := hv
        _ = prodP ns * n := by simp only [prodP]; ring
    rw [ih (v / n) (fun m hm => hpos m (by simp [hm])) hdiv]
    exact Nat.mod_add_div v n

/-- The `uint` product of node counts is bounded by the exact product. -/
theorem foldl_umul_le : ∀ (ns : List Nat) (a b : Nat), a ≤ b →
    ns.foldl umul a ≤ b * prodP ns := by
  intro ns
  induction ns with
  | nil => intro a b h; simpa [prodP] using h
  | cons n ns ih =>
    intro a b h
    simp only [List.foldl_cons, prodP]
    have h1 : umul a n ≤ b * n :=
      le_trans (Nat.mod_le _ _) (Nat.mul_le_mul_right n h)
    calc ns.foldl umul (umul a n) ≤ (b * n) * prodP ns := ih _ _ h1
      _ = b * (n * prodP ns) := by ring

/-- `nodeCount` as computed by `rasterize` never exceeds the exact
product of the node counts. -/
theorem nodeCountOf_le_prodP (N : List Nat) : nodeCountOf N ≤ prodP N := by
  cases N with
  | nil => simp [nodeCountOf, prodP]
  | cons n ns => simpa [nodeCountOf, prodP] using foldl_umul_le ns n n le_rfl

/-- A `uint` fold of `umul` stays below `2^32`. -/
theorem foldl_umul_lt : ∀ (ns : List Nat) (a : Nat), a < U32 → ns.foldl umul a < U32 := by
  intro ns
  induction ns with
  | nil => intro a h; simpa using h
  | cons n ns ih =>
    intro a h
    simp only [List.foldl_cons]
    exact ih _ (Nat.mod_lt _ (by decide))

/-- `nodeCount` of a nonempty configuration of `uint` node counts is a
`uint`. -/
theorem nodeCountOf_lt_U32 {N : List Nat} (h : ∀ n ∈ N, n < U32) (hne : N ≠ []) :
    nodeCountOf N < U32 := by
  cases N with
  | nil => simp at hne
  | cons n ns => exact foldl_umul_lt ns n (h n (by simp))

/-- C1: on every finalized grid, for every flat index below the computed
`nodeCount`, converting to a dimension index (`convertIndex(uint)`) and
back (`convertIndex(const uint*)`) returns the original flat index. -/
theorem convertIndex_flat_roundtrip (g : Grid) (flat : Nat)
    (hpos : ∀ n ∈ g.N, 0 < n) (hu : ∀ n ∈ g.N, n < U32)
    (hflat : flat < (rasterize g).nodeCount) :
    (rasterize g).convertIndexDim ((rasterize g).convertIndexFlat flat) = flat := by
  have hnc : (rasterize g).nodeCount = nodeCountOf g.N := rfl
  rw [hnc] at hflat
  have hne : g.N ≠ [] := by
    intro h
    rw [h] at hflat
    simp [nodeCountOf] at hflat
  have hlt : flat < prodP g.N := lt_of_lt_of_le hflat (nodeCountOf_le_prodP g.N)
  have hU : flat < U32 := lt_trans hflat (nodeCountOf_lt_U32 hu hne)
  have e1 : (rasterize g).convertIndexDim ((rasterize g).convertIndexFlat flat)
      = convertIdx (cumNList g.N) (flatToDim g.N flat) := rfl
  rw [e1, convertIdx_cumNList, valP_flatToDim g.N flat hpos hlt, Nat.mod_eq_of_lt hU]

/-- C1 witness: the round-trip at the finalized 3x3 grid and `flat = 7`. -/
theorem convertIndex_flat_roundtrip_witness :
    ((∀ n ∈ grid33.N, 0 < n) ∧ (∀ n ∈ grid33.N, n < U32) ∧
      7 < (rasterize grid33).nodeCount) ∧
    (rasterize grid33).convertIndexDim ((rasterize grid33).convertIndexFlat 7) = 7 :=
  ⟨⟨by decide, by decide, by decide⟩,
    convertIndex_flat_roundtrip grid33 7 (by decide) (by decide) (by decide)⟩

/-- C10 counterexample: on the finalized grid with `N=[65536,65536,65536]`
(total node count `2^48`, which overflows 32-bit arithmetic so that
`cumN[2] = 2^32 mod 2^32 = 0`), the in-range dimension index
`[0,0,32768]` maps to flat index `0`, and back to `[0,0,0]`, not to
itself. -/
theorem convertIndex_dim_roundtrip_cex :
    (rasterize gridBig).convertIndexFlat ((rasterize gridBig).convertIndexDim [0, 0, 32768])
      ≠ [0, 0, 32768] := by decide

/-- C10 (amended): on every finalized grid whose exact total node count
fits 32-bit arithmetic, converting an in-range dimension index to a flat
index and back returns the original dimension index. -/
theorem convertIndex_dim_roundtrip (g : Grid) (idx : List Nat)
    (h : List.Forall₂ (· < ·) idx g.N) (hfit : prodP g.N ≤ U32) :
    (rasterize g).convertIndexFlat ((rasterize g).convertIndexDim idx) = idx := by
  have e1 : (rasterize g).convertIndexFlat ((rasterize g).convertIndexDim idx)
      = flatToDim g.N (convertIdx (cumNList g.N) idx) := rfl
  have h2 : convertIdx (cumNList g.N) idx = valP idx g.N := by
    rw [convertIdx_cumNList]
    exact Nat.mod_eq_of_lt (lt_of_lt_of_le (valP_lt h) hfit)
  rw [e1, h2]
  exact flatToDim_valP h

/-- C10 witness: the amended round-trip at the finalized 3x3 grid and
dimension index `[2,1]`. -/
theorem convertIndex_dim_roundtrip_witness :
    (List.Forall₂ (· < ·) [2, 1] grid33.N ∧ prodP grid33.N ≤ U32) ∧
    (rasterize grid33).convertIndexFlat ((rasterize grid33).convertIndexDim [2, 1]) = [2, 1] :=
  ⟨⟨List.Forall₂.cons (by decide) (List.Forall₂.cons (by decide) List.Forall₂.nil),
      by decide⟩,
    convertIndex_dim_roundtrip grid33 [2, 1]
      (List.Forall₂.cons (by decide) (List.Forall₂.cons (by decide) List.Forall₂.nil))
      (by decide)⟩

/-- `usub i i = 0` for in-range `uint`s. -/
theorem usub_self {i : Nat} (h : i < U32) : usub i i = 0 := by
  rw [usub, Nat.mod_eq_of_lt h]
  have h2 : i + (U32 - i) = U32 := by omega
  rw [h2, Nat.mod_self]

/-- The filter `if (c != center)` of the neighborhood loop guarantees the
center's flat index is never emitted, whatever the bounds and the fuel. -/
theorem enumLoopNbr_center_not_mem (cums lo hi : List Nat) (center : Nat) :
    ∀ (fuel : Nat) (cur : List Nat), center ∉ enumLoopNbr cums lo hi center fuel cur := by
  intro fuel
  induction fuel with
  | zero => intro cur; simp [enumLoopNbr]
  | succ fuel ih =>
    intro cur
    simp only [enumLoopNbr]
    split
    · rename_i hne
      intro hmem
      rcases List.mem_cons.mp hmem with h | h
      · exact hne h.symm
      · exact ih _ h
    · exact ih _

/-- Every entry of an in-range dimension index is an in-range `uint`. -/
theorem forall₂_lt_mem {idx N : List Nat} (h : List.Forall₂ (· < ·) idx N)
    (hu : ∀ n ∈ N, n < U32) : ∀ i ∈ idx, i < U32 := by
  induction h with
  | nil => simp
  | @cons i n is ns h1 h2 ih =>
    intro j hj
    rcases List.mem_cons.mp hj with rfl | hj
    · exact lt_trans h1 (hu n (by simp))
    · exact ih (fun m hm => hu m (by simp [hm])) j hj

/-- With `radius = 0` the lower bounds of the neighborhood box equal the
center index. -/
theorem bminNbr_zero : ∀ (idx : List Nat), (∀ i ∈ idx, i < U32) → bminNbr idx 0 = idx := by
  intro idx
  induction idx with
  | nil => intro h; rfl
  | cons i is ih =>
    intro h
    show (if i < 0 then 0 else usub i 0) :: bminNbr is 0 = i :: is
    rw [if_neg (Nat.not_lt_zero i), usub_zero (h i (by simp)),
      ih (fun j hj => h j (by simp [hj]))]

/-- With `radius = 0` the upper bounds of the neighborhood box equal the
center index. -/
theorem bmaxNbr_zero {idx N : List Nat} (h : List.Forall₂ (· < ·) idx N)
    (hu : ∀ n ∈ N, n < U32) : bmaxNbr idx N 0 = idx := by
  induction h with
  | nil => rfl
  | @cons i n is ns h1 h2 ih =>
    have hnU : n < U32 := hu n (by simp)
    have hiU : i < U32 := lt_trans h1 hnU
    show min (uadd i 0) (usub n 1) :: bmaxNbr is ns 0 = i :: is
    rw [uadd_zero hiU, usub_one (by omega) hnU, ih (fun m hm => hu m (by simp [hm]))]
    congr 1
    omega

/-- When the box degenerates to the center alone, the loop runs once. -/
theorem nbrCount_self : ∀ (idx : List Nat), (∀ i ∈ idx, i < U32) → nbrCount idx idx = 1 := by
  intro idx
  induction idx with
  | nil => intro h; rfl
  | cons i is ih =>
    intro h
    have h1 : uadd (usub i i) 1 = 1 := by
      rw [usub_self (h i (by simp))]; decide
    show (List.zipWith (fun b a => uadd (usub b a) 1) (i :: is) (i :: is)).foldl umul 1 = 1
    rw [List.zipWith_cons_cons, h1, List.foldl_cons]
    have h2 : umul 1 1 = 1 := by decide
    rw [h2]
    exact ih (fun j hj => h j (by simp [hj]))

/-- C3: on every finalized grid and in-range center node, the
neighborhood of radius 0 is empty, and for every radius the returned
sequence never contains the center's own flat index. -/
theorem enumerateNeighborHood_center_excluded (g : Grid) (idx : List Nat)
    (h : List.Forall₂ (· < ·) idx g.N) (hu : ∀ n ∈ g.N, n < U32) :
    (rasterize g).enumerateNeighborHood idx 0 = [] ∧
    ∀ radius : Nat,
      (rasterize g).convertIndexDim idx ∉ (rasterize g).enumerateNeighborHood idx radius := by
  constructor
  · have hidx : ∀ i ∈ idx, i < U32 := forall₂_lt_mem h hu
    have e : (rasterize g).enumerateNeighborHood idx 0
        = enumLoopNbr (cumNList g.N) (bminNbr idx 0) (bmaxNbr idx g.N 0)
            (convertIdx (cumNList g.N) idx)
            (nbrCount (bminNbr idx 0) (bmaxNbr idx g.N 0)) (bminNbr idx 0) := rfl
    rw [e, bminNbr_zero idx hidx, bmaxNbr_zero h hu, nbrCount_self idx hidx]
    simp [enumLoopNbr]
  · intro radius
    exact enumLoopNbr_center_not_mem _ _ _ _ _ _

/-- C3 witness: the neighborhood properties at the finalized 3x3 grid and
center `[1,1]`. -/
theorem enumerateNeighborHood_center_excluded_witness :
    (List.Forall₂ (· < ·) [1, 1] grid33.N ∧ ∀ n ∈ grid33.N, n < U32) ∧
    ((rasterize grid33).enumerateNeighborHood [1, 1] 0 = [] ∧
      ∀ radius : Nat,
        (rasterize grid33).convertIndexDim [1, 1] ∉
          (rasterize grid33).enumerateNeighborHood [1, 1] radius) :=
  ⟨⟨List.Forall₂.cons (by decide) (List.Forall₂.cons (by decide) List.Forall₂.nil),
      by decide⟩,
    enumerateNeighborHood_center_excluded grid33 [1, 1]
      (List.Forall₂.cons (by decide) (List.Forall₂.cons (by decide) List.Forall₂.nil))
      (by decide)⟩

/-- The stride of a non-degenerate axis (`N >= 2`, `min < max`) is
strictly positive. -/
theorem strideAxis_pos {n : Nat} {mn mx : Rat} (h2 : 2 ≤ n) (hU : n < U32)
    (hlt : mn < mx) : 0 < strideAxis n mn mx := by
  rw [strideAxis, usub_one (by omega) hU]
  apply div_pos (by linarith)
  exact_mod_cast Nat.sub_pos_of_lt (by omega)

/-- A raster row with positive stride is strictly increasing. -/
theorem rasterAxis_pairwise {n : Nat} {mn st : Rat} (hst : 0 < st) :
    List.Pairwise (· < ·) (rasterAxis n mn st) := by
  unfold rasterAxis
  refine List.Pairwise.map _ ?_ (List.pairwise_lt_range n)
  intro a b hab
  have hq : (a : Rat) < (b : Rat) := by exact_mod_cast hab
  have h2 := mul_lt_mul_of_pos_right hq hst
  linarith

/-- Every raster row of a configuration of non-degenerate axes is
strictly increasing. -/
theorem rastersOf_pairwise : ∀ (N : List Nat) (mns mxs : List Rat),
    (∀ p ∈ N.zip (mns.zip mxs), 2 ≤ p.1 ∧ p.1 < U32 ∧ p.2.1 < p.2.2) →
    ∀ row ∈ rastersOf N mns mxs, List.Pairwise (· < ·) row := by
  intro N
  induction N with
  | nil => intro mns mxs h row hrow; exact absurd hrow (List.not_mem_nil row)
  | cons n ns ih =>
    intro mns mxs h row hrow
    cases mns with
    | nil => exact absurd hrow (List.not_mem_nil row)
    | cons mn mns =>
      cases mxs with
      | nil => exact absurd hrow (List.not_mem_nil row)
      | cons mx mxs =>
        rcases List.mem_cons.mp hrow with rfl | hrow
        · obtain ⟨h2, hU, hlt⟩ := h (n, mn, mx) (by simp)
          exact rasterAxis_pairwise (strideAxis_pos h2 hU hlt)
        · refine ih mns mxs (fun p hp => h p ?_) row hrow
          simp only [List.zip_cons_cons, List.mem_cons]
          exact Or.inr hp

/-- C4 (amended): after `rasterize`, on every axis with at least 2 nodes
and strictly increasing bounds (`min < max`), the raster coordinates are
strictly increasing.  (The claim's weaker premise `min <= max` fails: see
the counterexample with equal bounds.) -/
theorem raster_strict_increasing (g : Grid)
    (h : ∀ p ∈ g.N.zip (g.min.zip g.max), 2 ≤ p.1 ∧ p.1 < U32 ∧ p.2.1 < p.2.2) :
    ∀ row ∈ (rasterize g).raster, List.Pairwise (· < ·) row := by
  have e : (rasterize g).raster = rastersOf g.N g.min g.max := rfl
  rw [e]
  exact rastersOf_pairwise g.N g.min g.max h

/-- C4 counterexample: the grid with one axis, `N=[2]`, `min=[0]`,
`max=[0]` passes the claimed check (`N>=2` and `max>=min` on every axis),
yet its raster row is `[0,0]`, which is not strictly increasing. -/
theorem raster_strict_increasing_cex :
    (∀ p ∈ gridFlat.N.zip (gridFlat.min.zip gridFlat.max), 2 ≤ p.1 ∧ p.2.1 ≤ p.2.2) ∧
    ¬ (∀ row ∈ (rasterize gridFlat).raster, List.Pairwise (· < ·) row) := by
  have husub : usub 2 1 = 1 := by decide
  have hras : (rasterize gridFlat).raster = [[0, 0]] := by
    simp [rasterize, gridFlat, rastersOf, rasterAxis, strideAxis, husub, List.range_succ]
  constructor
  · intro p hp
    simp only [gridFlat, List.zip_cons_cons, List.zip_nil_right] at hp
    rcases List.mem_cons.mp hp with rfl | hp
    · exact ⟨le_refl 2, le_refl 0⟩
    · exact absurd hp (List.not_mem_nil p)
  · intro hall
    have h1 := hall [0, 0] (by rw [hras]; simp)
    norm_num [List.pairwise_cons] at h1

/-- C4 witness: the amended monotonicity at the finalized 3x3 grid. -/
theorem raster_strict_increasing_witness :
    (∀ p ∈ grid33.N.zip (grid33.min.zip grid33.max), 2 ≤ p.1 ∧ p.1 < U32 ∧ p.2.1 < p.2.2) ∧
    ∀ row ∈ (rasterize grid33).raster, List.Pairwise (· < ·) row :=
  ⟨by decide, raster_strict_increasing grid33 (by decide)⟩

/-- Per-axis characterization of the `containsPoint` loop. -/
theorem containsPointAux_iff : ∀ (xs mns mxs : List Rat),
    xs.length = mns.length → xs.length = mxs.length →
    (containsPointAux xs mns mxs = true ↔
      ∀ p ∈ xs.zip (mns.zip mxs), p.2.1 ≤ p.1 ∧ p.1 ≤ p.2.2) := by
  intro xs
  induction xs with
  | nil => intro mns mxs h1 h2; simp [containsPointAux]
  | cons x xs ih =>
    intro mns mxs h1 h2
    cases mns with
    | nil => simp at h1
    | cons mn mns =>
      cases mxs with
      | nil => simp at h2
      | cons mx mxs =>
        simp only [List.length_cons] at h1 h2
        have ih2 := ih mns mxs (by omega) (by omega)
        simp only [containsPointAux, List.zip_cons_cons, List.forall_mem_cons]
        split
        · rename_i hcond
          simp only [Bool.false_eq_true, false_iff]
          intro hall
          obtain ⟨⟨ha, hb⟩, _⟩ := hall
          rcases hcond with hgt | hlt
          · linarith
          · linarith
        · rename_i hcond
          push_neg at hcond
          rw [ih2]
          constructor
          · intro hrest
            exact ⟨⟨hcond.2, hcond.1⟩, hrest⟩
          · intro hall
            exact hall.2

/-- C8: on every finalized grid, `containsPoint(x)` is true iff
`min[d] <= x[d] <= max[d]` holds on every axis (both bounds inclusive). -/
theorem containsPoint_iff (g : Grid) (x : List Rat)
    (h1 : x.length = g.min.length) (h2 : x.length = g.max.length) :
    (rasterize g).containsPoint x = true ↔
      ∀ p ∈ x.zip (g.min.zip g.max), p.2.1 ≤ p.1 ∧ p.1 ≤ p.2.2 :=
  containsPointAux_iff x g.min g.max h1 h2

/-- C8 witness: the containment characterization at the finalized 3x3
grid and the boundary point `[2,2]`. -/
theorem containsPoint_iff_witness :
    (([2, 2] : List Rat).length = grid33.min.length ∧
      ([2, 2] : List Rat).length = grid33.max.length) ∧
    ((rasterize grid33).containsPoint [2, 2] = true ↔
      ∀ p ∈ ([2, 2] : List Rat).zip (grid33.min.zip grid33.max),
        p.2.1 ≤ p.1 ∧ p.1 ≤ p.2.2) :=
  ⟨⟨rfl, rfl⟩, containsPoint_iff grid33 [2, 2] rfl rfl⟩
